import Mathlib

/-! # To-do bot (`main.go`): task registry and conversation loop

A shallow embedding of `src/main.go`.

* The package-level variables `tasks` and `nextID` become the record `Registry`;
  `userStates` becomes a function from chat identifiers to optional entries;
  together they form `BotState`.
* Every Go function that touches the globals takes the state and returns the new
  state next to its Go result.
* `bot.Send` is modelled by collecting the messages handed to it, in order.
* Go `int` / `int64` values are embedded in `Int`.  `nextID` only grows by one per
  stored task, and the slice `tasks` is never shortened, so the counter would wrap
  only after `2^63 - 1` tasks are held in memory; the embedding does not model a
  run of that size.  The one place where the 64-bit range is observable on ordinary
  inputs, `strconv.Atoi`, carries the range check explicitly.
* Go strings are embedded in `String`; message texts reach the program through
  JSON decoding and are therefore sequences of Unicode code points.
-/

namespace TodoBot

/-! ## Data model (`main.go` lines 13-30) -/

/-- Task record, `type Task struct` in `main.go`. -/
structure Task where
  ID : Int
  Description : String
  Completed : Bool
  deriving DecidableEq, Repr

/-- The package-level variables `tasks` and `nextID`. -/
structure Registry where
  tasks : List Task
  nextID : Int
  deriving DecidableEq, Repr

/-- Per-chat conversation flags, `type UserState struct` in `main.go`. -/
structure UserState where
  AwaitingDescription : Bool
  AwaitingDoneID : Bool
  deriving DecidableEq, Repr

/-- Values of the globals at program start: `var tasks []Task`, `var nextID = 1`. -/
def Registry.init : Registry := { tasks := [], nextID := 1 }

/-! ## Registry operations (`main.go` lines 33-55) -/

/-- Go `addTask`: build the record from `nextID`, append it, bump the counter,
return the record. -/
def addTask (r : Registry) (description : String) : Registry × Task :=
  let task : Task := { ID := r.nextID, Description := description, Completed := false }
  ({ tasks := r.tasks ++ [task], nextID := r.nextID + 1 }, task)

/-- The `for i, task := range tasks` loop of Go `completeTask`, as a scan from the
front of the slice: the first record whose `ID` matches decides the result. -/
def completeTaskLoop (id : Int) : List Task → List Task × Bool
  | [] => ([], false)
  | task :: rest =>
    if task.ID = id then
      if task.Completed then (task :: rest, false)
      else ({ task with Completed := true } :: rest, true)
    else
      let r := completeTaskLoop id rest
      (task :: r.1, r.2)

/-- Go `completeTask`. -/
def completeTask (r : Registry) (id : Int) : Registry × Bool :=
  let res := completeTaskLoop id r.tasks
  ({ r with tasks := res.1 }, res.2)

/-- Go `getTasks`. -/
def getTasks (r : Registry) : List Task := r.tasks

/-! ## Call sequences on the registry -/

/-- One call on the registry. -/
inductive Op where
  | add (description : String)
  | complete (id : Int)
  deriving DecidableEq, Repr

/-- What a call returned. -/
inductive Ret where
  | task (t : Task)
  | bool (b : Bool)
  deriving DecidableEq, Repr

/-- Perform one call. -/
def applyOp (r : Registry) : Op → Registry × Ret
  | .add d => ((addTask r d).1, .task (addTask r d).2)
  | .complete id => ((completeTask r id).1, .bool (completeTask r id).2)

/-- Registry after a sequence of calls. -/
def runOps (r : Registry) : List Op → Registry
  | [] => r
  | op :: ops => runOps (applyOp r op).1 ops

/-- Results of a sequence of calls, one per call, in call order. -/
def traceOps (r : Registry) : List Op → List Ret
  | [] => []
  | op :: ops => (applyOp r op).2 :: traceOps (applyOp r op).1 ops

/-- The task carried by the result of an `addTask` call. -/
def Ret.task? : Ret → Option Task
  | .task t => some t
  | .bool _ => none

/-- The description carried by an `addTask` call. -/
def Op.add? : Op → Option String
  | .add d => some d
  | .complete _ => none

/-- The tasks returned by the `addTask` calls of a sequence, in call order. -/
def addResults (r : Registry) (ops : List Op) : List Task :=
  (traceOps r ops).filterMap Ret.task?

/-- The descriptions passed to the `addTask` calls of a sequence, in call order. -/
def addArgs (ops : List Op) : List String := ops.filterMap Op.add?

/-- The first record of the list whose `ID` is `id` exists and is completed. -/
def firstDone (id : Int) : List Task → Prop
  | [] => False
  | t :: rest => if t.ID = id then t.Completed = true else firstDone id rest

/-- The identifiers stored are `1, 2, ..., n` in list order and the counter is
`n + 1`, for `n` the number of stored tasks. -/
def RegInv (r : Registry) : Prop :=
  r.tasks.map Task.ID = (List.range r.tasks.length).map (fun i : Nat => (i : Int) + 1) ∧
    r.nextID = (r.tasks.length : Int) + 1

/-! ## Go standard-library functions used by the message loop

`strings.TrimSpace`, `strings.HasPrefix`, `strings.SplitN`, `strconv.Atoi` and the
`%d` verb of `fmt.Sprintf` belong to the Go standard library; they are modelled
here from their documented behaviour, on code points. -/

/-- Go `unicode.IsSpace`: the white-space code points. -/
def isSpace (c : Char) : Bool :=
  let n := c.toNat
  (9 ≤ n && n ≤ 13) || n = 32 || n = 0x85 || n = 0xA0 || n = 0x1680 ||
    (0x2000 ≤ n && n ≤ 0x200A) || n = 0x2028 || n = 0x2029 || n = 0x202F ||
    n = 0x205F || n = 0x3000

/-- Go `strings.TrimSpace`: drop leading and trailing white space. -/
def TrimSpace (s : String) : String :=
  String.mk ((s.data.dropWhile isSpace).reverse.dropWhile isSpace).reverse

/-- Go `strings.HasPrefix s p`. -/
def HasPrefix (s p : String) : Bool := p.data.isPrefixOf s.data

/-- Cut a character list at the first occurrence of `sep`. -/
def cutFirst (sep : Char) : List Char → Option (List Char × List Char)
  | [] => none
  | c :: cs =>
    if c = sep then some ([], cs)
    else match cutFirst sep cs with
      | none => none
      | some (a, b) => some (c :: a, b)

/-- Go `strings.SplitN s sep 2` for a one-character separator: the whole string
when the separator does not occur, else the parts before and after its first
occurrence. -/
def SplitN2 (s : String) (sep : Char) : List String :=
  match cutFirst sep s.data with
  | none => [s]
  | some (a, b) => [String.mk a, String.mk b]

/-- Value of a run of ASCII decimal digits, `none` when another character occurs. -/
def parseDigits : List Char → Nat → Option Nat
  | [], acc => some acc
  | c :: cs, acc =>
    if c.isDigit then parseDigits cs (acc * 10 + (c.toNat - 48)) else none

/-- Go `strconv.Atoi` on a 64-bit platform.  `none` stands for a non-nil `err`
(syntax error or value out of the `int` range); `some n` for `(n, nil)`.  Accepted
are an optional `+` or `-` followed by at least one decimal digit. -/
def Atoi (s : String) : Option Int :=
  match s.data with
  | [] => none
  | c :: cs =>
    let body := if c = '-' ∨ c = '+' then cs else c :: cs
    if body = [] then none
    else match parseDigits body 0 with
      | none => none
      | some un =>
        if c = '-' then (if un ≤ 2 ^ 63 then some (-(un : Int)) else none)
        else (if un < 2 ^ 63 then some (un : Int) else none)

/-- The `%d` verb of `fmt.Sprintf`. -/
def fmtInt (i : Int) : String :=
  if i < 0 then "-" ++ Nat.repr i.natAbs else Nat.repr i.toNat

/-! ## Command handlers (`main.go` lines 59-98) -/

/-- Go `handleStartCommand`. -/
def handleStartCommand : String :=
  "Привет! Я ваш бот-планировщик. Выберите действие ниже или используйте /help для списка команд."

/-- Go `handleHelpCommand`. -/
def handleHelpCommand : String :=
  "Доступные команды:\n/start - начать работу с ботом\n/add - добавить новую задачу (после команды нужно ввести описание)\n/list - показать список задач\n/done - отметить задачу как выполненную по ID (после команды нужно ввести ID)"

/-- Go `handleAddCommand`. -/
def handleAddCommand (r : Registry) (description : String) : Registry × String :=
  let res := addTask r description
  (res.1, "✅ Задача добавлена: " ++ res.2.Description ++ " (ID: " ++ fmtInt res.2.ID ++ ")")

/-- Reply of `handleCompleteCommand` when `completeTask` returned `true`. -/
def msgCompleted (id : Int) : String :=
  "✅ Задача с ID " ++ fmtInt id ++ " помечена как выполненная."

/-- Reply of `handleCompleteCommand` when `completeTask` returned `false`. -/
def msgNotFoundOrDone (id : Int) : String :=
  "❌ Задача с ID " ++ fmtInt id ++ " не найдена или уже выполнена."

/-- Go `handleCompleteCommand`. -/
def handleCompleteCommand (r : Registry) (id : Int) : Registry × String :=
  let res := completeTask r id
  if res.2 then (res.1, msgCompleted id) else (res.1, msgNotFoundOrDone id)

/-- One line written by the loop of `handleListCommand`. -/
def listEntry (task : Task) : String :=
  "ID: " ++ fmtInt task.ID ++ " - " ++ task.Description ++ " [" ++
    (if task.Completed then "✅" else "❌") ++ "]\n"

/-- Go `handleListCommand`. -/
def handleListCommand (r : Registry) : String :=
  let response := (getTasks r).foldl (fun acc task => acc ++ listEntry task) ""
  if response.length = 0 then "Список задач пуст." else response

/-! ## The message loop (`main.go` lines 135-234) -/

/-- The part of an update the loop reads: `update.Message.Chat.ID` and
`update.Message.Text`. -/
structure Message where
  chatID : Int
  text : String
  deriving DecidableEq, Repr

/-- A message handed to `bot.Send`: addressee, text, and whether
`msg.ReplyMarkup = createKeyboard()` was set. -/
structure Sent where
  chatID : Int
  text : String
  keyboard : Bool
  deriving DecidableEq, Repr

/-- All mutable globals: the registry and the map `userStates`. -/
structure BotState where
  reg : Registry
  userStates : Int → Option UserState

/-- Globals at program start: the initial registry and an empty `userStates`. -/
def BotState.init : BotState := { reg := Registry.init, userStates := fun _ => none }

/-- Go `userStates[chatID] = &st`. -/
def setState (m : Int → Option UserState) (chatID : Int) (st : UserState) :
    Int → Option UserState :=
  fun c => if c = chatID then some st else m c

/-- Go `delete(userStates, chatID)`. -/
def deleteState (m : Int → Option UserState) (chatID : Int) : Int → Option UserState :=
  fun c => if c = chatID then none else m c

/-- Reply to an identifier that is not a positive number (line 159). -/
def msgInvalidID : String := "Некорректный ID. Пожалуйста, введите положительное число."

/-- Reply after a pending description was stored (line 150). -/
def msgTaskAdded : String := "Задача добавлена."

/-- Reply of the `default` case when nothing matched (line 230). -/
def msgUnknown : String :=
  "Неизвестная команда. Пожалуйста, выберите действие из меню или используйте /help."

/-- Reply to `/add` without a description (line 211). -/
def msgMissingDescription : String :=
  "Пожалуйста, укажите описание задачи после команды /add."

/-- Lines 143-172: the check of the chat's pending state.  `none` means neither
branch of the `if ... else if` was taken and control reaches the `switch`. -/
def pendingLayer (s : BotState) (chatID : Int) (text : String) :
    Option (BotState × List Sent) :=
  match s.userStates chatID with
  | none => none
  | some state =>
    if state.AwaitingDescription then
      let description := text
      let res := handleAddCommand s.reg description
      some ({ reg := res.1, userStates := deleteState s.userStates chatID },
        [{ chatID := chatID, text := msgTaskAdded, keyboard := true }])
    else if state.AwaitingDoneID then
      let idStr := TrimSpace text
      match Atoi idStr with
      | none => some (s, [{ chatID := chatID, text := msgInvalidID, keyboard := false }])
      | some id =>
        if id ≤ 0 then
          some (s, [{ chatID := chatID, text := msgInvalidID, keyboard := false }])
        else
          let res := handleCompleteCommand s.reg id
          some ({ reg := res.1, userStates := deleteState s.userStates chatID },
            [{ chatID := chatID, text := res.2, keyboard := true }])
    else none

/-- Lines 174-233: the `switch text` with its `default` case. -/
def commandLayer (s : BotState) (chatID : Int) (text : String) : BotState × List Sent :=
  if text = "/start" ∨ text = "Главное меню" then
    (s, [{ chatID := chatID, text := handleStartCommand, keyboard := true }])
  else if text = "Добавить задачу" then
    ({ reg := s.reg,
       userStates := setState s.userStates chatID
          ({ AwaitingDescription := true, AwaitingDoneID := false }) },
      [{ chatID := chatID, text := "Пожалуйста, введите описание задачи:", keyboard := false }])
  else if text = "Список задач" then
    (s, [{ chatID := chatID, text := handleListCommand s.reg, keyboard := false }])
  else if text = "/help" then
    (s, [{ chatID := chatID, text := handleHelpCommand, keyboard := false }])
  else if text = "Выполнено" then
    ({ reg := s.reg,
       userStates := setState s.userStates chatID
          ({ AwaitingDescription := false, AwaitingDoneID := true }) },
      [{ chatID := chatID, text := "Пожалуйста, введите ID задачи для завершения:",
         keyboard := false }])
  else if HasPrefix text "/add" then
    let parts := SplitN2 text ' '
    if parts.length < 2 ∨ TrimSpace (parts.getD 1 "") = "" then
      (s, [{ chatID := chatID, text := msgMissingDescription, keyboard := false }])
    else
      let description := TrimSpace (parts.getD 1 "")
      let res := handleAddCommand s.reg description
      ({ reg := res.1, userStates := s.userStates },
        [{ chatID := chatID, text := res.2, keyboard := false }])
  else if HasPrefix text "/list" ∨ text = "/list" then
    (s, [{ chatID := chatID, text := handleListCommand s.reg, keyboard := false }])
  else
    (s, [{ chatID := chatID, text := msgUnknown, keyboard := false }])

/-- One iteration of `for update := range updates`: the new globals and the
messages sent.  `none` is an update whose `Message` is nil. -/
def loopBody (s : BotState) (update : Option Message) : BotState × List Sent :=
  match update with
  | none => (s, [])
  | some m =>
    match pendingLayer s m.chatID m.text with
    | some res => res
    | none => commandLayer s m.chatID m.text

/-- Globals after the loop has processed a sequence of updates. -/
def runLoop (s : BotState) : List (Option Message) → BotState
  | [] => s
  | u :: us => runLoop (loopBody s u).1 us


/-- Every entry of `userStates` has exactly one of its two flags set. -/
def StatesInv (m : Int → Option UserState) : Prop :=
  ∀ (c : Int) (st : UserState), m c = some st →
    (st.AwaitingDescription = true ∧ st.AwaitingDoneID = false) ∨
    (st.AwaitingDescription = false ∧ st.AwaitingDoneID = true)

/-- Invariant of the message loop: the registry invariant and the flag invariant. -/
def LoopInv (s : BotState) : Prop := RegInv s.reg ∧ StatesInv s.userStates

/-! ## Lemmas on the registry operations -/

theorem completeTaskLoop_map_ID (id : Int) (l : List Task) :
    (completeTaskLoop id l).1.map Task.ID = l.map Task.ID := by
  induction l with
  | nil => rfl
  | cons t rest ih =>
    simp only [completeTaskLoop]
    split_ifs <;> simp [ih]

theorem completeTaskLoop_map_Description (id : Int) (l : List Task) :
    (completeTaskLoop id l).1.map Task.Description = l.map Task.Description := by
  induction l with
  | nil => rfl
  | cons t rest ih =>
    simp only [completeTaskLoop]
    split_ifs <;> simp [ih]

theorem completeTaskLoop_length (id : Int) (l : List Task) :
    (completeTaskLoop id l).1.length = l.length := by
  have h := congrArg List.length (completeTaskLoop_map_ID id l)
  simpa using h

theorem completeTaskLoop_cons_eq (id : Int) (t : Task) (rest : List Task)
    (h : t.ID = id) :
    completeTaskLoop id (t :: rest) =
      if t.Completed then (t :: rest, false)
      else ({ t with Completed := true } :: rest, true) := by
  simp only [completeTaskLoop, if_pos h]

theorem completeTaskLoop_cons_ne (id : Int) (t : Task) (rest : List Task)
    (h : t.ID ≠ id) :
    completeTaskLoop id (t :: rest) =
      (t :: (completeTaskLoop id rest).1, (completeTaskLoop id rest).2) := by
  simp only [completeTaskLoop, if_neg h]

theorem completeTaskLoop_false (id : Int) (l : List Task)
    (h : (completeTaskLoop id l).2 = false) : (completeTaskLoop id l).1 = l := by
  induction l with
  | nil => rfl
  | cons t rest ih =>
    by_cases h1 : t.ID = id
    · rw [completeTaskLoop_cons_eq id t rest h1] at h ⊢
      cases hc : t.Completed
      · rw [hc] at h; simp at h
      · simp
    · rw [completeTaskLoop_cons_ne id t rest h1] at h ⊢
      simp only at h ⊢
      rw [ih h]

theorem completeTaskLoop_true (id : Int) (l : List Task)
    (h : (completeTaskLoop id l).2 = true) :
    ∃ pre t post, l = pre ++ t :: post ∧ (∀ u ∈ pre, u.ID ≠ id) ∧ t.ID = id ∧
      t.Completed = false ∧
      (completeTaskLoop id l).1 = pre ++ { t with Completed := true } :: post := by
  induction l with
  | nil => simp [completeTaskLoop] at h
  | cons t rest ih =>
    by_cases h1 : t.ID = id
    · rw [completeTaskLoop_cons_eq id t rest h1] at h ⊢
      cases hc : t.Completed
      · exact ⟨[], t, rest, rfl, by simp, h1, hc, by simp⟩
      · rw [hc] at h; simp at h
    · rw [completeTaskLoop_cons_ne id t rest h1] at h ⊢
      simp only at h ⊢
      obtain ⟨pre, u, post, e1, e2, e3, e4, e5⟩ := ih h
      refine ⟨t :: pre, u, post, by simp [e1], ?_, e3, e4, by simp [e5]⟩
      intro v hv
      rcases List.mem_cons.1 hv with rfl | hv
      · exact h1
      · exact e2 v hv

theorem completeTaskLoop_pointwise (id : Int) (l : List Task) :
    List.Forall₂ (fun a b : Task => b.ID = a.ID ∧ b.Description = a.Description ∧
      (a.Completed = true → b.Completed = true)) l (completeTaskLoop id l).1 := by
  induction l with
  | nil => exact List.Forall₂.nil
  | cons t rest ih =>
    have hrefl : List.Forall₂ (fun a b : Task => b.ID = a.ID ∧
        b.Description = a.Description ∧ (a.Completed = true → b.Completed = true))
        rest rest := by
      clear ih
      induction rest with
      | nil => exact List.Forall₂.nil
      | cons u us ihu => exact List.Forall₂.cons ⟨rfl, rfl, fun h => h⟩ ihu
    simp only [completeTaskLoop]
    split_ifs with h1 h2
    · exact List.Forall₂.cons ⟨rfl, rfl, fun h => h⟩ hrefl
    · exact List.Forall₂.cons ⟨rfl, rfl, fun _ => rfl⟩ hrefl
    · exact List.Forall₂.cons ⟨rfl, rfl, fun h => h⟩ ih

theorem completeTaskLoop_absent (id : Int) (l : List Task)
    (h : ∀ t ∈ l, t.ID ≠ id) : (completeTaskLoop id l).2 = false := by
  induction l with
  | nil => rfl
  | cons t rest ih =>
    have h1 : t.ID ≠ id := h t (List.mem_cons_self _ _)
    simp only [completeTaskLoop, if_neg h1]
    exact ih (fun u hu => h u (List.mem_cons_of_mem _ hu))

theorem completeTaskLoop_unique (id : Int) (l : List Task) (hn : (l.map Task.ID).Nodup)
    (t : Task) (ht : t ∈ l) (hid : t.ID = id) :
    (completeTaskLoop id l).2 = !t.Completed := by
  induction l with
  | nil => simp at ht
  | cons u rest ih =>
    rw [List.map_cons, List.nodup_cons] at hn
    simp only [completeTaskLoop]
    rcases List.mem_cons.1 ht with rfl | ht
    · rw [if_pos hid]
      cases hc : t.Completed <;> simp
    · have hne : u.ID ≠ id := by
        intro hu
        apply hn.1
        rw [hu, ← hid]
        exact List.mem_map_of_mem _ ht
      rw [if_neg hne]
      exact ih hn.2 ht

theorem completeTaskLoop_marks (id : Int) (l : List Task) (hn : (l.map Task.ID).Nodup)
    (h : (completeTaskLoop id l).2 = true) :
    ∀ t ∈ (completeTaskLoop id l).1, t.ID = id → t.Completed = true := by
  induction l with
  | nil => simp [completeTaskLoop]
  | cons u rest ih =>
    rw [List.map_cons, List.nodup_cons] at hn
    by_cases h1 : u.ID = id
    · rw [completeTaskLoop_cons_eq id u rest h1] at h ⊢
      cases hc : u.Completed
      · intro t ht hid
        simp only [Bool.false_eq_true, if_false] at ht
        rcases List.mem_cons.1 ht with rfl | ht
        · rfl
        · exact absurd (by rw [h1, ← hid]; exact List.mem_map_of_mem _ ht) hn.1
      · rw [hc] at h; simp at h
    · rw [completeTaskLoop_cons_ne id u rest h1] at h ⊢
      intro t ht hid
      rcases List.mem_cons.1 ht with rfl | ht
      · exact absurd hid h1
      · exact ih hn.2 h t ht hid

theorem firstDone_of_true (id : Int) (l : List Task)
    (h : (completeTaskLoop id l).2 = true) : firstDone id (completeTaskLoop id l).1 := by
  induction l with
  | nil => simp [completeTaskLoop] at h
  | cons t rest ih =>
    by_cases h1 : t.ID = id
    · rw [completeTaskLoop_cons_eq id t rest h1] at h ⊢
      cases hc : t.Completed
      · simp [firstDone, h1]
      · rw [hc] at h; simp at h
    · rw [completeTaskLoop_cons_ne id t rest h1] at h ⊢
      simp only [firstDone, if_neg h1]
      exact ih h

theorem firstDone_complete (id id2 : Int) (l : List Task) (h : firstDone id l) :
    firstDone id (completeTaskLoop id2 l).1 := by
  induction l with
  | nil => exact h
  | cons t rest ih =>
    by_cases h2 : t.ID = id2
    · rw [completeTaskLoop_cons_eq id2 t rest h2]
      cases hc : t.Completed
      · by_cases h1 : t.ID = id
        · simp [firstDone, h1]
        · simp only [firstDone, if_neg h1] at h
          simpa [firstDone, h1] using h
      · simpa using h
    · rw [completeTaskLoop_cons_ne id2 t rest h2]
      by_cases h1 : t.ID = id
      · simp only [firstDone, if_pos h1] at h ⊢
        exact h
      · simp only [firstDone, if_neg h1] at h ⊢
        exact ih h

theorem firstDone_append (id : Int) (l : List Task) (t : Task) (h : firstDone id l) :
    firstDone id (l ++ [t]) := by
  induction l with
  | nil => exact absurd h (by simp [firstDone])
  | cons u rest ih =>
    by_cases h1 : u.ID = id
    · simp only [List.cons_append, firstDone, if_pos h1] at h ⊢
      exact h
    · simp only [List.cons_append, firstDone, if_neg h1] at h ⊢
      exact ih h

theorem firstDone_false (id : Int) (l : List Task) (h : firstDone id l) :
    (completeTaskLoop id l).2 = false := by
  induction l with
  | nil => rfl
  | cons u rest ih =>
    by_cases h1 : u.ID = id
    · simp only [firstDone, if_pos h1] at h
      rw [completeTaskLoop_cons_eq id u rest h1, h]
      rfl
    · simp only [firstDone, if_neg h1] at h
      rw [completeTaskLoop_cons_ne id u rest h1]
      exact ih h

theorem firstDone_applyOp (id : Int) (r : Registry) (op : Op) (h : firstDone id r.tasks) :
    firstDone id (applyOp r op).1.tasks := by
  cases op with
  | add d => exact firstDone_append id r.tasks _ h
  | complete id2 => exact firstDone_complete id id2 r.tasks h

theorem traceOps_after_done (id : Int) (ops : List Op) :
    ∀ (r : Registry) (j : Nat), firstDone id r.tasks → ops[j]? = some (Op.complete id) →
      (traceOps r ops)[j]? = some (Ret.bool false) := by
  induction ops with
  | nil => intro r j _ h; simp at h
  | cons op ops ih =>
    intro r j hd h
    cases j with
    | zero =>
      simp only [List.getElem?_cons_zero, Option.some.injEq] at h
      subst h
      simp [traceOps, applyOp, completeTask, firstDone_false id r.tasks hd]
    | succ j =>
      simp only [List.getElem?_cons_succ] at h
      simp only [traceOps, List.getElem?_cons_succ]
      exact ih _ j (firstDone_applyOp id r op hd) h

theorem traceOps_once (id : Int) (ops : List Op) :
    ∀ (r : Registry) (i j : Nat), i < j → ops[i]? = some (Op.complete id) →
      (traceOps r ops)[i]? = some (Ret.bool true) → ops[j]? = some (Op.complete id) →
      (traceOps r ops)[j]? = some (Ret.bool false) := by
  induction ops with
  | nil => intro r i j _ h; simp at h
  | cons op ops ih =>
    intro r i j hij hi hti hj
    cases j with
    | zero => omega
    | succ j =>
      simp only [List.getElem?_cons_succ] at hj
      simp only [traceOps, List.getElem?_cons_succ]
      cases i with
      | zero =>
        simp only [List.getElem?_cons_zero, Option.some.injEq] at hi
        subst hi
        simp only [traceOps, applyOp, List.getElem?_cons_zero, Option.some.injEq,
          Ret.bool.injEq] at hti
        exact traceOps_after_done id ops _ j (firstDone_of_true id r.tasks hti) hj
      | succ i =>
        simp only [List.getElem?_cons_succ] at hi
        simp only [traceOps, List.getElem?_cons_succ] at hti
        exact ih _ i j (by omega) hi hti hj

/-! ## The registry invariant -/

theorem RegInv_init : RegInv Registry.init := by
  simp [RegInv, Registry.init]

theorem RegInv_addTask (r : Registry) (d : String) (h : RegInv r) :
    RegInv (addTask r d).1 := by
  obtain ⟨h1, h2⟩ := h
  refine ⟨?_, ?_⟩
  · simp only [addTask, List.map_append, List.length_append, List.length_singleton,
      List.range_succ, h1, h2, List.map_cons, List.map_nil]
  · simp only [addTask, List.length_append, List.length_singleton, h2]
    push_cast
    ring

theorem RegInv_completeTask (r : Registry) (id : Int) (h : RegInv r) :
    RegInv (completeTask r id).1 := by
  obtain ⟨h1, h2⟩ := h
  refine ⟨?_, ?_⟩
  · simp only [completeTask, completeTaskLoop_map_ID, completeTaskLoop_length, h1]
  · simp only [completeTask, completeTaskLoop_length, h2]

theorem RegInv_applyOp (r : Registry) (op : Op) (h : RegInv r) : RegInv (applyOp r op).1 := by
  cases op with
  | add d => exact RegInv_addTask r d h
  | complete id => exact RegInv_completeTask r id h

theorem RegInv_runOps (ops : List Op) : ∀ r : Registry, RegInv r → RegInv (runOps r ops) := by
  induction ops with
  | nil => intro r h; exact h
  | cons op ops ih => intro r h; exact ih _ (RegInv_applyOp r op h)

theorem RegInv_nodup (r : Registry) (h : RegInv r) : (r.tasks.map Task.ID).Nodup := by
  rw [h.1]
  refine List.Nodup.map ?_ (List.nodup_range _)
  intro a b hab
  simpa using hab

theorem completeTask_true_iff (r : Registry) (hinv : RegInv r) (id : Int) :
    (completeTask r id).2 = true ↔ ∃ t ∈ r.tasks, t.ID = id ∧ t.Completed = false := by
  constructor
  · intro h
    obtain ⟨pre, t, post, e1, _, e3, e4, _⟩ := completeTaskLoop_true id r.tasks h
    exact ⟨t, by rw [e1]; simp, e3, e4⟩
  · rintro ⟨t, ht, hid, hc⟩
    have := completeTaskLoop_unique id r.tasks (RegInv_nodup r hinv) t ht hid
    simpa [completeTask, hc] using this

/-! ## Call sequences -/

theorem addResults_getElem? (ops : List Op) :
    ∀ (r : Registry) (k : Nat),
      (addResults r ops)[k]? = (addArgs ops)[k]?.map
        (fun d => ({ ID := r.nextID + (k : Int), Description := d, Completed := false } : Task)) := by
  induction ops with
  | nil => intro r k; simp [addResults, addArgs, traceOps]
  | cons op ops ih =>
    intro r k
    cases op with
    | add d =>
      have e1 : addResults r (Op.add d :: ops) =
          (addTask r d).2 :: addResults (addTask r d).1 ops := by
        simp [addResults, traceOps, applyOp, Ret.task?]
      have e2 : addArgs (Op.add d :: ops) = d :: addArgs ops := by
        simp [addArgs, Op.add?]
      rw [e1, e2]
      cases k with
      | zero => simp [addTask]
      | succ k =>
        simp only [List.getElem?_cons_succ]
        rw [ih (addTask r d).1 k]
        have e3 : (addTask r d).1.nextID + (k : Int) = r.nextID + ((k + 1 : Nat) : Int) := by
          simp only [addTask]
          push_cast
          ring
        rw [e3]
    | complete id =>
      have e1 : addResults r (Op.complete id :: ops) =
          addResults (completeTask r id).1 ops := by
        simp [addResults, traceOps, applyOp, Ret.task?]
      have e2 : addArgs (Op.complete id :: ops) = addArgs ops := by
        simp [addArgs, Op.add?]
      rw [e1, e2, ih (completeTask r id).1 k]
      rfl

theorem runOps_descriptions (ops : List Op) :
    ∀ r : Registry,
      (runOps r ops).tasks.map Task.Description =
        r.tasks.map Task.Description ++ addArgs ops := by
  induction ops with
  | nil => intro r; simp [runOps, addArgs]
  | cons op ops ih =>
    intro r
    cases op with
    | add d =>
      simp only [runOps, applyOp]
      rw [ih]
      simp [addTask, addArgs, Op.add?]
    | complete id =>
      simp only [runOps, applyOp]
      rw [ih]
      have hd : (completeTask r id).1.tasks.map Task.Description =
          r.tasks.map Task.Description := completeTaskLoop_map_Description id r.tasks
      rw [hd]
      simp [addArgs, Op.add?]

/-! ## Claims on the task registry -/

/-- C1: starting from the initial registry, in any sequence of `addTask` and
`completeTask` calls the `k`-th call of `addTask` (index `k - 1` among the `addTask`
results) returns the task with `ID = k`, the description that was passed in and
`Completed = false`; there is one result per `addTask` call. -/
theorem C1_addTask_returns_kth_id (ops : List Op) :
    (addResults Registry.init ops).length = (addArgs ops).length ∧
    ∀ k : Nat, (addResults Registry.init ops)[k]? = (addArgs ops)[k]?.map
      (fun d => ({ ID := (k : Int) + 1, Description := d, Completed := false } : Task)) := by
  have key : ∀ k : Nat, (addResults Registry.init ops)[k]? = (addArgs ops)[k]?.map
      (fun d => ({ ID := (k : Int) + 1, Description := d, Completed := false } : Task)) := by
    intro k
    rw [addResults_getElem? ops Registry.init k]
    have e : ∀ d : String,
        ({ ID := Registry.init.nextID + (k : Int), Description := d, Completed := false } : Task)
          = { ID := (k : Int) + 1, Description := d, Completed := false } := by
      intro d
      simp [Registry.init, add_comm]
    simp only [e]
  refine ⟨?_, key⟩
  apply le_antisymm
  · by_contra hlt
    push_neg at hlt
    have h1 := key (addArgs ops).length
    rw [List.getElem?_eq_none (le_refl _), Option.map_none'] at h1
    rw [List.getElem?_eq_none_iff] at h1
    omega
  · by_contra hlt
    push_neg at hlt
    have h1 := key (addResults Registry.init ops).length
    rw [List.getElem?_eq_none (le_refl _)] at h1
    rw [List.getElem?_eq_getElem hlt] at h1
    simp at h1

/-- C2: in every registry state reached from the initial one by `addTask` and
`completeTask` calls and for every integer `id`, `completeTask id` returns `true`
exactly when a task with that `ID` is stored with `Completed = false`; after a `true`
result the task with that `ID` is stored and completed; the result is `false` when no
task has the `ID` and when the task with the `ID` is already completed. -/
theorem C2_completeTask_result (ops : List Op) (id : Int) :
    ((completeTask (runOps Registry.init ops) id).2 = true ↔
      ∃ t ∈ (runOps Registry.init ops).tasks, t.ID = id ∧ t.Completed = false) ∧
    ((completeTask (runOps Registry.init ops) id).2 = true →
      (∃ t ∈ (completeTask (runOps Registry.init ops) id).1.tasks, t.ID = id) ∧
      ∀ t ∈ (completeTask (runOps Registry.init ops) id).1.tasks,
        t.ID = id → t.Completed = true) ∧
    ((∀ t ∈ (runOps Registry.init ops).tasks, t.ID ≠ id) →
      (completeTask (runOps Registry.init ops) id).2 = false) ∧
    ((∃ t ∈ (runOps Registry.init ops).tasks, t.ID = id ∧ t.Completed = true) →
      (completeTask (runOps Registry.init ops) id).2 = false) := by
  have hinv : RegInv (runOps Registry.init ops) := RegInv_runOps ops _ RegInv_init
  have hn := RegInv_nodup _ hinv
  generalize runOps Registry.init ops = r at hinv hn
  refine ⟨completeTask_true_iff r hinv id, ?_, ?_, ?_⟩
  · intro h
    refine ⟨?_, completeTaskLoop_marks id r.tasks hn h⟩
    obtain ⟨pre, t, post, _, _, e3, _, e5⟩ := completeTaskLoop_true id r.tasks h
    refine ⟨{ t with Completed := true }, ?_, e3⟩
    simp only [completeTask]
    rw [e5]
    simp
  · intro h
    exact completeTaskLoop_absent id r.tasks h
  · rintro ⟨t, ht, hid, hc⟩
    have := completeTaskLoop_unique id r.tasks hn t ht hid
    simpa [completeTask, hc] using this

/-- C3: in any sequence of `addTask` and `completeTask` calls from the initial
registry and for every `id`, two calls `completeTask id` that both return `true` are
the same call, and every `completeTask id` made after one that returned `true`
returns `false`. -/
theorem C3_completeTask_true_at_most_once (ops : List Op) (id : Int) :
    (∀ i j : Nat, ops[i]? = some (Op.complete id) →
      (traceOps Registry.init ops)[i]? = some (Ret.bool true) →
      ops[j]? = some (Op.complete id) →
      (traceOps Registry.init ops)[j]? = some (Ret.bool true) → i = j) ∧
    (∀ i j : Nat, i < j → ops[i]? = some (Op.complete id) →
      (traceOps Registry.init ops)[i]? = some (Ret.bool true) →
      ops[j]? = some (Op.complete id) →
      (traceOps Registry.init ops)[j]? = some (Ret.bool false)) := by
  have later := traceOps_once id ops Registry.init
  refine ⟨?_, later⟩
  intro i j hi hti hj htj
  rcases Nat.lt_trichotomy i j with h | h | h
  · have := later i j h hi hti hj
    rw [htj] at this
    simp at this
  · exact h
  · have := later j i h hj htj hi
    rw [hti] at this
    simp at this

/-- C3 on the scenario of the specification: add "buy milk", add "buy eggs",
complete 1, complete 1, complete 99. -/
theorem C3_completeTask_true_at_most_once_witness :
    traceOps Registry.init
        [Op.add "buy milk", Op.add "buy eggs", Op.complete 1, Op.complete 1, Op.complete 99] =
      [Ret.task ⟨1, "buy milk", false⟩, Ret.task ⟨2, "buy eggs", false⟩,
        Ret.bool true, Ret.bool false, Ret.bool false] ∧
    getTasks (runOps Registry.init
        [Op.add "buy milk", Op.add "buy eggs", Op.complete 1, Op.complete 1, Op.complete 99]) =
      [⟨1, "buy milk", true⟩, ⟨2, "buy eggs", false⟩] ∧
    (traceOps Registry.init
        [Op.add "buy milk", Op.add "buy eggs", Op.complete 1, Op.complete 1,
          Op.complete 99])[3]? = some (Ret.bool false) :=
  ⟨by decide, by decide,
    (C3_completeTask_true_at_most_once
      [Op.add "buy milk", Op.add "buy eggs", Op.complete 1, Op.complete 1, Op.complete 99]
      1).2 2 3 (by decide) (by decide) (by decide) (by decide)⟩

/-- C4: after any sequence of `addTask` and `completeTask` calls from the initial
registry, `getTasks` returns as many tasks as there were `addTask` calls, and the
descriptions of the returned tasks, in list order, are the descriptions passed to the
`addTask` calls, in call order. -/
theorem C4_getTasks_creation_order (ops : List Op) :
    (getTasks (runOps Registry.init ops)).length = (addArgs ops).length ∧
    (getTasks (runOps Registry.init ops)).map Task.Description = addArgs ops := by
  have h : (getTasks (runOps Registry.init ops)).map Task.Description = addArgs ops := by
    have := runOps_descriptions ops Registry.init
    simpa [getTasks, Registry.init] using this
  refine ⟨?_, h⟩
  have hl := congrArg List.length h
  simpa using hl

/-- C5: for every registry state and every `id`, `completeTask id` keeps `nextID`,
the number and order of the tasks and every `ID` and `Description`, and turns no
`Completed` flag from `true` to `false`; on result `false` the task list is unchanged;
on result `true` the list changes in one position only, at a task with that `ID`,
whose flag goes from `false` to `true`.  `addTask` keeps every stored task and appends
the new one. -/
theorem C5_completeTask_frame (r : Registry) (id : Int) :
    (completeTask r id).1.nextID = r.nextID ∧
    List.Forall₂ (fun a b : Task => b.ID = a.ID ∧ b.Description = a.Description ∧
        (a.Completed = true → b.Completed = true)) r.tasks (completeTask r id).1.tasks ∧
    ((completeTask r id).2 = false → (completeTask r id).1.tasks = r.tasks) ∧
    ((completeTask r id).2 = true → ∃ pre t post, r.tasks = pre ++ t :: post ∧
        t.ID = id ∧ t.Completed = false ∧
        (completeTask r id).1.tasks = pre ++ { t with Completed := true } :: post) ∧
    (∀ d : String, (addTask r d).1.tasks = r.tasks ++ [(addTask r d).2]) := by
  refine ⟨rfl, completeTaskLoop_pointwise id r.tasks, completeTaskLoop_false id r.tasks,
    ?_, fun _ => rfl⟩
  intro h
  obtain ⟨pre, t, post, e1, _, e3, e4, e5⟩ := completeTaskLoop_true id r.tasks h
  exact ⟨pre, t, post, e1, e3, e4, e5⟩

/-! ## The pending-input check, branch by branch -/

theorem pendingLayer_absent (s : BotState) (c : Int) (text : String)
    (h : s.userStates c = none) : pendingLayer s c text = none := by
  simp only [pendingLayer, h]

theorem pendingLayer_noflag (s : BotState) (c : Int) (text : String) (st : UserState)
    (h : s.userStates c = some st) (hd : st.AwaitingDescription = false)
    (hi : st.AwaitingDoneID = false) : pendingLayer s c text = none := by
  simp [pendingLayer, h, hd, hi]

theorem pendingLayer_description (s : BotState) (c : Int) (text : String) (st : UserState)
    (h : s.userStates c = some st) (hd : st.AwaitingDescription = true) :
    pendingLayer s c text =
      some ({ reg := (handleAddCommand s.reg text).1,
              userStates := deleteState s.userStates c },
            [{ chatID := c, text := msgTaskAdded, keyboard := true }]) := by
  simp [pendingLayer, h, hd]

theorem pendingLayer_invalid (s : BotState) (c : Int) (text : String) (st : UserState)
    (h : s.userStates c = some st) (hd : st.AwaitingDescription = false)
    (hi : st.AwaitingDoneID = true)
    (hbad : Atoi (TrimSpace text) = none ∨
      ∃ n : Int, Atoi (TrimSpace text) = some n ∧ n ≤ 0) :
    pendingLayer s c text =
      some (s, [{ chatID := c, text := msgInvalidID, keyboard := false }]) := by
  rcases hbad with hn | ⟨n, hn, hle⟩
  · simp [pendingLayer, h, hd, hi, hn]
  · simp [pendingLayer, h, hd, hi, hn, hle]

theorem pendingLayer_valid (s : BotState) (c : Int) (text : String) (st : UserState)
    (n : Int) (h : s.userStates c = some st) (hd : st.AwaitingDescription = false)
    (hi : st.AwaitingDoneID = true) (hn : Atoi (TrimSpace text) = some n) (hpos : 0 < n) :
    pendingLayer s c text =
      some ({ reg := (handleCompleteCommand s.reg n).1,
              userStates := deleteState s.userStates c },
            [{ chatID := c, text := (handleCompleteCommand s.reg n).2, keyboard := true }]) := by
  have hle : ¬ n ≤ 0 := not_le.2 hpos
  simp [pendingLayer, h, hd, hi, hn, hle]

theorem handleCompleteCommand_fst (r : Registry) (n : Int) :
    (handleCompleteCommand r n).1 = (completeTask r n).1 := by
  cases h : (completeTask r n).2 <;> simp [handleCompleteCommand, h]

theorem handleCompleteCommand_snd (r : Registry) (n : Int) :
    (handleCompleteCommand r n).2 =
      if (completeTask r n).2 = true then msgCompleted n else msgNotFoundOrDone n := by
  cases h : (completeTask r n).2 <;> simp [handleCompleteCommand, h]

theorem loopBody_of_pending (s : BotState) (m : Message) (res : BotState × List Sent)
    (h : pendingLayer s m.chatID m.text = some res) : loopBody s (some m) = res := by
  simp only [loopBody, h]

theorem loopBody_of_none (s : BotState) (m : Message)
    (h : pendingLayer s m.chatID m.text = none) :
    loopBody s (some m) = commandLayer s m.chatID m.text := by
  simp only [loopBody, h]

/-- What one iteration may do to the globals: the registry is kept, or extended by
`addTask`, or updated by `completeTask`; the sender's entry of `userStates` is kept,
deleted, or overwritten with one of the two single-flag values. -/
theorem loopBody_effect (s : BotState) (m : Message) :
    ((loopBody s (some m)).1.reg = s.reg ∨
      (∃ d : String, (loopBody s (some m)).1.reg = (addTask s.reg d).1) ∨
      (∃ n : Int, (loopBody s (some m)).1.reg = (completeTask s.reg n).1)) ∧
    ((loopBody s (some m)).1.userStates = s.userStates ∨
      (loopBody s (some m)).1.userStates = deleteState s.userStates m.chatID ∨
      (loopBody s (some m)).1.userStates = setState s.userStates m.chatID
        { AwaitingDescription := true, AwaitingDoneID := false } ∨
      (loopBody s (some m)).1.userStates = setState s.userStates m.chatID
        { AwaitingDescription := false, AwaitingDoneID := true }) := by
  have hcmd : ((commandLayer s m.chatID m.text).1.reg = s.reg ∨
      (∃ d : String, (commandLayer s m.chatID m.text).1.reg = (addTask s.reg d).1) ∨
      (∃ n : Int, (commandLayer s m.chatID m.text).1.reg = (completeTask s.reg n).1)) ∧
    ((commandLayer s m.chatID m.text).1.userStates = s.userStates ∨
      (commandLayer s m.chatID m.text).1.userStates = deleteState s.userStates m.chatID ∨
      (commandLayer s m.chatID m.text).1.userStates = setState s.userStates m.chatID
        { AwaitingDescription := true, AwaitingDoneID := false } ∨
      (commandLayer s m.chatID m.text).1.userStates = setState s.userStates m.chatID
        { AwaitingDescription := false, AwaitingDoneID := true }) := by
    simp only [commandLayer]
    split_ifs
    all_goals first
      | exact ⟨Or.inl rfl, Or.inl rfl⟩
      | exact ⟨Or.inl rfl, Or.inr (Or.inr (Or.inl rfl))⟩
      | exact ⟨Or.inl rfl, Or.inr (Or.inr (Or.inr rfl))⟩
      | exact ⟨Or.inr (Or.inl ⟨_, rfl⟩), Or.inl rfl⟩
  cases hs : s.userStates m.chatID with
  | none =>
    rw [loopBody_of_none s m (pendingLayer_absent s m.chatID m.text hs)]
    exact hcmd
  | some st =>
    cases hd : st.AwaitingDescription with
    | true =>
      rw [loopBody_of_pending s m _ (pendingLayer_description s m.chatID m.text st hs hd)]
      exact ⟨Or.inr (Or.inl ⟨_, rfl⟩), Or.inr (Or.inl rfl)⟩
    | false =>
      cases hi : st.AwaitingDoneID with
      | false =>
        rw [loopBody_of_none s m (pendingLayer_noflag s m.chatID m.text st hs hd hi)]
        exact hcmd
      | true =>
        cases hn : Atoi (TrimSpace m.text) with
        | none =>
          rw [loopBody_of_pending s m _
            (pendingLayer_invalid s m.chatID m.text st hs hd hi (Or.inl hn))]
          exact ⟨Or.inl rfl, Or.inl rfl⟩
        | some n =>
          by_cases hle : n ≤ 0
          · rw [loopBody_of_pending s m _
              (pendingLayer_invalid s m.chatID m.text st hs hd hi (Or.inr ⟨n, hn, hle⟩))]
            exact ⟨Or.inl rfl, Or.inl rfl⟩
          · rw [loopBody_of_pending s m _
              (pendingLayer_valid s m.chatID m.text st n hs hd hi hn (not_le.1 hle))]
            exact ⟨Or.inr (Or.inr ⟨n, handleCompleteCommand_fst s.reg n⟩), Or.inr (Or.inl rfl)⟩

theorem StatesInv_deleteState (m : Int → Option UserState) (c : Int) (h : StatesInv m) :
    StatesInv (deleteState m c) := by
  intro c2 st hst
  unfold deleteState at hst
  split_ifs at hst
  exact h c2 st hst

theorem StatesInv_setState (m : Int → Option UserState) (c : Int) (v : UserState)
    (hv : (v.AwaitingDescription = true ∧ v.AwaitingDoneID = false) ∨
      (v.AwaitingDescription = false ∧ v.AwaitingDoneID = true))
    (h : StatesInv m) : StatesInv (setState m c v) := by
  intro c2 st hst
  unfold setState at hst
  split_ifs at hst
  · simp only [Option.some.injEq] at hst
    subst hst
    exact hv
  · exact h c2 st hst

theorem LoopInv_init : LoopInv BotState.init := by
  refine ⟨RegInv_init, ?_⟩
  intro c st h
  simp [BotState.init] at h

theorem LoopInv_loopBody (s : BotState) (u : Option Message) (h : LoopInv s) :
    LoopInv (loopBody s u).1 := by
  cases u with
  | none => exact h
  | some m =>
    obtain ⟨hr, hu⟩ := loopBody_effect s m
    refine ⟨?_, ?_⟩
    · rcases hr with e | ⟨d, e⟩ | ⟨n, e⟩
      · rw [e]; exact h.1
      · rw [e]; exact RegInv_addTask s.reg d h.1
      · rw [e]; exact RegInv_completeTask s.reg n h.1
    · rcases hu with e | e | e | e
      · rw [e]; exact h.2
      · rw [e]; exact StatesInv_deleteState _ _ h.2
      · rw [e]; exact StatesInv_setState _ _ _ (Or.inl ⟨rfl, rfl⟩) h.2
      · rw [e]; exact StatesInv_setState _ _ _ (Or.inr ⟨rfl, rfl⟩) h.2

theorem LoopInv_runLoop (us : List (Option Message)) :
    ∀ s : BotState, LoopInv s → LoopInv (runLoop s us) := by
  induction us with
  | nil => intro s h; exact h
  | cons u us ih => intro s h; exact ih _ (LoopInv_loopBody s u h)

theorem commandLayer_addButton (s : BotState) (c : Int) :
    commandLayer s c "Добавить задачу" =
      ({ reg := s.reg,
         userStates := setState s.userStates c
           { AwaitingDescription := true, AwaitingDoneID := false } },
       [{ chatID := c, text := "Пожалуйста, введите описание задачи:", keyboard := false }]) := by
  rfl

/-! ## Claims on the message loop -/

/-- C6: in every state the message loop reaches from the initial state, under any
sequence of inbound updates, each entry stored in `userStates` has exactly one of
`AwaitingDescription` and `AwaitingDoneID` set; in particular never both. -/
theorem C6_exactly_one_flag (us : List (Option Message)) (c : Int) (st : UserState)
    (h : (runLoop BotState.init us).userStates c = some st) :
    ((st.AwaitingDescription = true ∧ st.AwaitingDoneID = false) ∨
      (st.AwaitingDescription = false ∧ st.AwaitingDoneID = true)) ∧
    ¬ (st.AwaitingDescription = true ∧ st.AwaitingDoneID = true) := by
  have hinv := (LoopInv_runLoop us BotState.init LoopInv_init).2 c st h
  refine ⟨hinv, ?_⟩
  rintro ⟨h1, h2⟩
  rcases hinv with ⟨_, h3⟩ | ⟨h3, _⟩
  · rw [h2] at h3; exact Bool.noConfusion h3
  · rw [h1] at h3; exact Bool.noConfusion h3

/-- C6 at two chats, one in each pending mode. -/
theorem C6_exactly_one_flag_witness :
    (runLoop BotState.init
        [some ⟨5, "Добавить задачу"⟩, some ⟨7, "Выполнено"⟩]).userStates 7 =
      some ⟨false, true⟩ ∧
    (((⟨false, true⟩ : UserState).AwaitingDescription = true ∧
        (⟨false, true⟩ : UserState).AwaitingDoneID = false) ∨
      ((⟨false, true⟩ : UserState).AwaitingDescription = false ∧
        (⟨false, true⟩ : UserState).AwaitingDoneID = true)) ∧
    ¬ ((⟨false, true⟩ : UserState).AwaitingDescription = true ∧
        (⟨false, true⟩ : UserState).AwaitingDoneID = true) :=
  ⟨by decide,
    C6_exactly_one_flag [some ⟨5, "Добавить задачу"⟩, some ⟨7, "Выполнено"⟩] 7 ⟨false, true⟩
      (by decide)⟩

/-- C7: for a chat without an entry in `userStates` and every text `t`: after the
chat sends "Добавить задачу" its entry is awaiting-description and the registry is
untouched; after it then sends `t`, exactly one task has been appended, with
`Description = t` unmodified, `ID` the former `nextID` and `Completed = false`, the
counter has advanced by one, and the chat's entry is gone. -/
theorem C7_add_flow (s : BotState) (c : Int) (t : String) (h : s.userStates c = none) :
    (loopBody s (some ⟨c, "Добавить задачу"⟩)).1.userStates c =
      some { AwaitingDescription := true, AwaitingDoneID := false } ∧
    (loopBody s (some ⟨c, "Добавить задачу"⟩)).1.reg = s.reg ∧
    (loopBody (loopBody s (some ⟨c, "Добавить задачу"⟩)).1 (some ⟨c, t⟩)).1.reg.tasks =
      s.reg.tasks ++ [{ ID := s.reg.nextID, Description := t, Completed := false }] ∧
    (loopBody (loopBody s (some ⟨c, "Добавить задачу"⟩)).1 (some ⟨c, t⟩)).1.reg.nextID =
      s.reg.nextID + 1 ∧
    (loopBody (loopBody s (some ⟨c, "Добавить задачу"⟩)).1 (some ⟨c, t⟩)).1.userStates c =
      none := by
  have e1 : loopBody s (some ⟨c, "Добавить задачу"⟩) = commandLayer s c "Добавить задачу" :=
    loopBody_of_none s ⟨c, "Добавить задачу"⟩ (pendingLayer_absent s c _ h)
  rw [e1, commandLayer_addButton]
  have hs1 : (setState s.userStates c
      { AwaitingDescription := true, AwaitingDoneID := false }) c =
      some { AwaitingDescription := true, AwaitingDoneID := false } := by
    simp [setState]
  have e2 := loopBody_of_pending
    { reg := s.reg, userStates := setState s.userStates c
        { AwaitingDescription := true, AwaitingDoneID := false } } ⟨c, t⟩ _
    (pendingLayer_description _ c t _ hs1 rfl)
  rw [e2]
  refine ⟨hs1, rfl, rfl, rfl, ?_⟩
  simp [deleteState]

/-- C7 at the initial state, chat 5 and the whitespace-only text. -/
theorem C7_add_flow_witness :
    BotState.init.userStates 5 = none ∧
    (loopBody BotState.init (some ⟨5, "Добавить задачу"⟩)).1.userStates 5 =
      some { AwaitingDescription := true, AwaitingDoneID := false } ∧
    (loopBody BotState.init (some ⟨5, "Добавить задачу"⟩)).1.reg = BotState.init.reg ∧
    (loopBody (loopBody BotState.init (some ⟨5, "Добавить задачу"⟩)).1
        (some ⟨5, "  "⟩)).1.reg.tasks =
      BotState.init.reg.tasks ++
        [{ ID := BotState.init.reg.nextID, Description := "  ", Completed := false }] ∧
    (loopBody (loopBody BotState.init (some ⟨5, "Добавить задачу"⟩)).1
        (some ⟨5, "  "⟩)).1.reg.nextID = BotState.init.reg.nextID + 1 ∧
    (loopBody (loopBody BotState.init (some ⟨5, "Добавить задачу"⟩)).1
        (some ⟨5, "  "⟩)).1.userStates 5 = none :=
  ⟨rfl, C7_add_flow BotState.init 5 "  " rfl⟩

/-- C8: in every state the loop reaches in which a chat has an entry in `userStates`,
every text from that chat, whether or not it is a command or menu label, is handled by
the pending-input check alone: the outcome of the iteration is the outcome of that
check, exactly one message is sent, to the same chat, and it is one of the replies of
the pending-input branches; afterwards the chat's entry is absent or the same as
before. -/
theorem C8_pending_precedes_commands (us : List (Option Message)) (c : Int) (text : String)
    (st : UserState) (h : (runLoop BotState.init us).userStates c = some st) :
    pendingLayer (runLoop BotState.init us) c text =
      some (loopBody (runLoop BotState.init us) (some ⟨c, text⟩)) ∧
    (∃ reply : Sent, (loopBody (runLoop BotState.init us) (some ⟨c, text⟩)).2 = [reply] ∧
      reply.chatID = c ∧
      (reply.text = msgTaskAdded ∨ reply.text = msgInvalidID ∨
        ∃ n : Int, 0 < n ∧ (reply.text = msgCompleted n ∨ reply.text = msgNotFoundOrDone n))) ∧
    ((loopBody (runLoop BotState.init us) (some ⟨c, text⟩)).1.userStates c = none ∨
      (loopBody (runLoop BotState.init us) (some ⟨c, text⟩)).1.userStates c = some st) := by
  have hinv := (LoopInv_runLoop us BotState.init LoopInv_init).2 c st h
  generalize runLoop BotState.init us = s at h
  have hdel : (deleteState s.userStates c) c = none := by simp [deleteState]
  rcases hinv with ⟨hd, _⟩ | ⟨hd, hi⟩
  · have hp := pendingLayer_description s c text st h hd
    have e := loopBody_of_pending s ⟨c, text⟩ _ hp
    rw [e]
    exact ⟨hp, ⟨_, rfl, rfl, Or.inl rfl⟩, Or.inl hdel⟩
  · cases hn : Atoi (TrimSpace text) with
    | none =>
      have hp := pendingLayer_invalid s c text st h hd hi (Or.inl hn)
      have e := loopBody_of_pending s ⟨c, text⟩ _ hp
      rw [e]
      exact ⟨hp, ⟨_, rfl, rfl, Or.inr (Or.inl rfl)⟩, Or.inr h⟩
    | some n =>
      by_cases hle : n ≤ 0
      · have hp := pendingLayer_invalid s c text st h hd hi (Or.inr ⟨n, hn, hle⟩)
        have e := loopBody_of_pending s ⟨c, text⟩ _ hp
        rw [e]
        exact ⟨hp, ⟨_, rfl, rfl, Or.inr (Or.inl rfl)⟩, Or.inr h⟩
      · have hp := pendingLayer_valid s c text st n h hd hi hn (not_le.1 hle)
        have e := loopBody_of_pending s ⟨c, text⟩ _ hp
        rw [e]
        refine ⟨hp, ⟨_, rfl, rfl, Or.inr (Or.inr ⟨n, not_le.1 hle, ?_⟩)⟩, Or.inl hdel⟩
        simp only [handleCompleteCommand_snd]
        split_ifs
        · exact Or.inl rfl
        · exact Or.inr rfl

/-- C8 at a chat that awaits a task ID and sends the menu label "Добавить задачу". -/
theorem C8_pending_precedes_commands_witness :
    (runLoop BotState.init [some ⟨5, "Выполнено"⟩]).userStates 5 = some ⟨false, true⟩ ∧
    (loopBody (runLoop BotState.init [some ⟨5, "Выполнено"⟩])
        (some ⟨5, "Добавить задачу"⟩)).2 = [⟨5, msgInvalidID, false⟩] ∧
    ((loopBody (runLoop BotState.init [some ⟨5, "Выполнено"⟩])
        (some ⟨5, "Добавить задачу"⟩)).1.userStates 5 = none ∨
      (loopBody (runLoop BotState.init [some ⟨5, "Выполнено"⟩])
        (some ⟨5, "Добавить задачу"⟩)).1.userStates 5 = some ⟨false, true⟩) :=
  ⟨by decide, by decide,
    (C8_pending_precedes_commands [some ⟨5, "Выполнено"⟩] 5 "Добавить задачу" ⟨false, true⟩
      (by decide)).2.2⟩

/-- C9: for a chat whose entry is awaiting-done-ID and a text whose trimmed form
`strconv.Atoi` rejects or parses to a value `≤ 0`: the one message sent is the
invalid-ID reply to that chat, the task list and `nextID` are unchanged, and the
chat's entry is still the same awaiting-done-ID entry. -/
theorem C9_invalid_id_keeps_state (s : BotState) (c : Int) (text : String) (st : UserState)
    (hst : s.userStates c = some st) (hd : st.AwaitingDescription = false)
    (hi : st.AwaitingDoneID = true)
    (hbad : Atoi (TrimSpace text) = none ∨
      ∃ n : Int, Atoi (TrimSpace text) = some n ∧ n ≤ 0) :
    (loopBody s (some ⟨c, text⟩)).2 = [{ chatID := c, text := msgInvalidID, keyboard := false }] ∧
    (loopBody s (some ⟨c, text⟩)).1.reg.tasks = s.reg.tasks ∧
    (loopBody s (some ⟨c, text⟩)).1.reg.nextID = s.reg.nextID ∧
    (loopBody s (some ⟨c, text⟩)).1.userStates c = some st := by
  rw [loopBody_of_pending s ⟨c, text⟩ _ (pendingLayer_invalid s c text st hst hd hi hbad)]
  exact ⟨rfl, rfl, rfl, hst⟩

/-- C9 at a chat that pressed "Выполнено" and then sends "abc"; the texts "", "0" and
"-3" meet the same hypothesis. -/
theorem C9_invalid_id_keeps_state_witness :
    (runLoop BotState.init [some ⟨5, "Выполнено"⟩]).userStates 5 = some ⟨false, true⟩ ∧
    Atoi (TrimSpace "abc") = none ∧ Atoi (TrimSpace "") = none ∧
    Atoi (TrimSpace "0") = some 0 ∧ Atoi (TrimSpace "-3") = some (-3) ∧
    ((loopBody (runLoop BotState.init [some ⟨5, "Выполнено"⟩]) (some ⟨5, "abc"⟩)).2 =
        [{ chatID := 5, text := msgInvalidID, keyboard := false }] ∧
      (loopBody (runLoop BotState.init [some ⟨5, "Выполнено"⟩]) (some ⟨5, "abc"⟩)).1.reg.tasks =
        (runLoop BotState.init [some ⟨5, "Выполнено"⟩]).reg.tasks ∧
      (loopBody (runLoop BotState.init [some ⟨5, "Выполнено"⟩]) (some ⟨5, "abc"⟩)).1.reg.nextID =
        (runLoop BotState.init [some ⟨5, "Выполнено"⟩]).reg.nextID ∧
      (loopBody (runLoop BotState.init [some ⟨5, "Выполнено"⟩]) (some ⟨5, "abc"⟩)).1.userStates 5 =
        some ⟨false, true⟩) :=
  ⟨by decide, by decide, by decide, by decide, by decide,
    C9_invalid_id_keeps_state (runLoop BotState.init [some ⟨5, "Выполнено"⟩]) 5 "abc"
      ⟨false, true⟩ (by decide) rfl rfl (Or.inl (by decide))⟩

/-- C10: in every state the loop reaches, for a chat whose entry is awaiting-done-ID
and a text whose trimmed form parses as a positive integer `n`: the registry becomes
what `completeTask n` makes of it; the one message sent is the success reply for `n`
when a task with `ID = n` and `Completed = false` is stored, and otherwise, for an
absent `ID` as for a completed task, the "not found or already done" reply for `n`;
in both cases the chat's entry is removed from `userStates`. -/
theorem C10_valid_id_completes (us : List (Option Message)) (c : Int) (text : String)
    (st : UserState) (n : Int)
    (hst : (runLoop BotState.init us).userStates c = some st)
    (hi : st.AwaitingDoneID = true)
    (hn : Atoi (TrimSpace text) = some n) (hpos : 0 < n) :
    (loopBody (runLoop BotState.init us) (some ⟨c, text⟩)).1.reg =
      (completeTask (runLoop BotState.init us).reg n).1 ∧
    ((∃ t ∈ (runLoop BotState.init us).reg.tasks, t.ID = n ∧ t.Completed = false) →
      (loopBody (runLoop BotState.init us) (some ⟨c, text⟩)).2 =
        [{ chatID := c, text := msgCompleted n, keyboard := true }]) ∧
    (¬ (∃ t ∈ (runLoop BotState.init us).reg.tasks, t.ID = n ∧ t.Completed = false) →
      (loopBody (runLoop BotState.init us) (some ⟨c, text⟩)).2 =
        [{ chatID := c, text := msgNotFoundOrDone n, keyboard := true }]) ∧
    (loopBody (runLoop BotState.init us) (some ⟨c, text⟩)).1.userStates c = none := by
  obtain ⟨hreg, hstates⟩ := LoopInv_runLoop us BotState.init LoopInv_init
  have hflags := hstates c st hst
  generalize runLoop BotState.init us = s at hst hreg hstates
  have hd : st.AwaitingDescription = false := by
    rcases hflags with ⟨_, h2⟩ | ⟨h1, _⟩
    · rw [hi] at h2; exact Bool.noConfusion h2
    · exact h1
  rw [loopBody_of_pending s ⟨c, text⟩ _ (pendingLayer_valid s c text st n hst hd hi hn hpos)]
  have hiff := completeTask_true_iff s.reg hreg n
  refine ⟨handleCompleteCommand_fst s.reg n, ?_, ?_, by simp [deleteState]⟩
  · intro hex
    simp only [handleCompleteCommand_snd, if_pos (hiff.2 hex)]
  · intro hex
    have hf : ¬ (completeTask s.reg n).2 = true := fun h => hex (hiff.1 h)
    simp only [handleCompleteCommand_snd, if_neg hf]

/-- C10 at a chat that stored "buy milk", pressed "Выполнено" and sends " 1 ". -/
theorem C10_valid_id_completes_witness :
    (runLoop BotState.init
        [some ⟨5, "Добавить задачу"⟩, some ⟨5, "buy milk"⟩, some ⟨5, "Выполнено"⟩]).userStates 5 =
      some ⟨false, true⟩ ∧
    Atoi (TrimSpace " 1 ") = some 1 ∧
    (loopBody (runLoop BotState.init
        [some ⟨5, "Добавить задачу"⟩, some ⟨5, "buy milk"⟩, some ⟨5, "Выполнено"⟩])
        (some ⟨5, " 1 "⟩)).1.reg =
      (completeTask (runLoop BotState.init
        [some ⟨5, "Добавить задачу"⟩, some ⟨5, "buy milk"⟩, some ⟨5, "Выполнено"⟩]).reg 1).1 ∧
    (loopBody (runLoop BotState.init
        [some ⟨5, "Добавить задачу"⟩, some ⟨5, "buy milk"⟩, some ⟨5, "Выполнено"⟩])
        (some ⟨5, " 1 "⟩)).2 = [{ chatID := 5, text := msgCompleted 1, keyboard := true }] ∧
    (loopBody (runLoop BotState.init
        [some ⟨5, "Добавить задачу"⟩, some ⟨5, "buy milk"⟩, some ⟨5, "Выполнено"⟩])
        (some ⟨5, " 1 "⟩)).1.userStates 5 = none :=
  have h := C10_valid_id_completes
    [some ⟨5, "Добавить задачу"⟩, some ⟨5, "buy milk"⟩, some ⟨5, "Выполнено"⟩] 5 " 1 "
    ⟨false, true⟩ 1 (by decide) rfl (by decide) (by decide)
  ⟨by decide, by decide, h.1,
    h.2.1 ⟨⟨1, "buy milk", false⟩, by decide, by decide, by decide⟩, h.2.2.2⟩

/-! ## The command switch -/

theorem cutFirst_some (sep : Char) (l : List Char) :
    ∀ a b : List Char, cutFirst sep l = some (a, b) → l = a ++ sep :: b ∧ sep ∉ a := by
  induction l with
  | nil => intro a b h; simp [cutFirst] at h
  | cons c cs ih =>
    intro a b h
    by_cases hc : c = sep
    · simp only [cutFirst, if_pos hc, Option.some.injEq, Prod.mk.injEq] at h
      obtain ⟨rfl, rfl⟩ := h
      simp [hc]
    · simp only [cutFirst, if_neg hc] at h
      cases hr : cutFirst sep cs with
      | none => simp [hr] at h
      | some p =>
        obtain ⟨a2, b2⟩ := p
        simp only [hr, Option.some.injEq, Prod.mk.injEq] at h
        obtain ⟨rfl, rfl⟩ := h
        obtain ⟨e, hn⟩ := ih a2 b2 hr
        refine ⟨by simp [e], ?_⟩
        intro hm
        rcases List.mem_cons.1 hm with h1 | h1
        · exact hc h1.symm
        · exact hn h1

theorem SplitN2_cases (text : String) (sep : Char) :
    SplitN2 text sep = [text] ∨
    ∃ a b : String, SplitN2 text sep = [a, b] ∧ text.data = a.data ++ sep :: b.data ∧
      sep ∉ a.data := by
  unfold SplitN2
  cases hr : cutFirst sep text.data with
  | none => exact Or.inl rfl
  | some p =>
    obtain ⟨a, b⟩ := p
    obtain ⟨e, hn⟩ := cutFirst_some sep text.data a b hr
    exact Or.inr ⟨String.mk a, String.mk b, rfl, e, hn⟩

/-- The registry after the `switch`: unchanged, or, in the `/add` branch with a
second part that is not blank, extended by `addTask` with the trimmed second part. -/
theorem commandLayer_reg_cases (s : BotState) (c : Int) (text : String) :
    (commandLayer s c text).1.reg = s.reg ∨
    (HasPrefix text "/add" = true ∧
      ∃ a b : String, SplitN2 text ' ' = [a, b] ∧ text.data = a.data ++ ' ' :: b.data ∧
        ' ' ∉ a.data ∧ TrimSpace b ≠ "" ∧
        commandLayer s c text =
          ({ reg := (addTask s.reg (TrimSpace b)).1, userStates := s.userStates },
            [{ chatID := c, text := (handleAddCommand s.reg (TrimSpace b)).2,
               keyboard := false }])) := by
  unfold commandLayer
  by_cases h1 : text = "/start" ∨ text = "Главное меню"
  · rw [if_pos h1]; exact Or.inl rfl
  rw [if_neg h1]
  by_cases h2 : text = "Добавить задачу"
  · rw [if_pos h2]; exact Or.inl rfl
  rw [if_neg h2]
  by_cases h3 : text = "Список задач"
  · rw [if_pos h3]; exact Or.inl rfl
  rw [if_neg h3]
  by_cases h4 : text = "/help"
  · rw [if_pos h4]; exact Or.inl rfl
  rw [if_neg h4]
  by_cases h5 : text = "Выполнено"
  · rw [if_pos h5]; exact Or.inl rfl
  rw [if_neg h5]
  by_cases h6 : HasPrefix text "/add" = true
  · rw [if_pos h6]
    dsimp only
    by_cases h7 : (SplitN2 text ' ').length < 2 ∨ TrimSpace ((SplitN2 text ' ').getD 1 "") = ""
    · rw [if_pos h7]; exact Or.inl rfl
    · rw [if_neg h7]
      right
      refine ⟨h6, ?_⟩
      rcases SplitN2_cases text ' ' with hsp | ⟨a, b, hsp, hdata, hna⟩
      · exact absurd (Or.inl (by rw [hsp]; simp)) h7
      · refine ⟨a, b, hsp, hdata, hna, ?_, ?_⟩
        · intro hb
          apply h7
          right
          rw [hsp]
          exact hb
        · rw [hsp]
          rfl
  · rw [if_neg h6]
    by_cases h8 : HasPrefix text "/list" = true ∨ text = "/list"
    · rw [if_pos h8]; exact Or.inl rfl
    · rw [if_neg h8]; exact Or.inl rfl

theorem commandLayer_unknown (s : BotState) (c : Int) (text : String)
    (h1 : text ≠ "/start") (h2 : text ≠ "Главное меню") (h3 : text ≠ "Добавить задачу")
    (h4 : text ≠ "Список задач") (h5 : text ≠ "/help") (h6 : text ≠ "Выполнено")
    (h7 : HasPrefix text "/add" = false) (h8 : HasPrefix text "/list" = false) :
    commandLayer s c text = (s, [{ chatID := c, text := msgUnknown, keyboard := false }]) := by
  have h9 : text ≠ "/list" := by
    intro e
    rw [e] at h8
    exact absurd h8 (by decide)
  unfold commandLayer
  rw [if_neg (not_or.2 ⟨h1, h2⟩), if_neg h3, if_neg h4, if_neg h5, if_neg h6,
    if_neg (by simp [h7]), if_neg (by simp [h8, h9])]

theorem commandLayer_one_reply (s : BotState) (c : Int) (text : String) :
    ∃ reply : Sent, (commandLayer s c text).2 = [reply] ∧ reply.chatID = c := by
  unfold commandLayer
  dsimp only
  split_ifs <;> exact ⟨_, rfl, rfl⟩

theorem text_eq_of_data (text a b : String) (h : text.data = a.data ++ ' ' :: b.data) :
    text = a ++ " " ++ b := by
  apply String.ext
  rw [h]
  simp [String.data_append]

/-- C11, as amended: for a chat without an entry in `userStates` and every text, the
message changes the task list or `nextID` only when the text has the prefix "/add"
and the part after its first blank is not empty after trimming; a text that is none
of the literals of the `switch` and has neither the "/add" nor the "/list" prefix
gets the unknown-command reply and leaves the registry unchanged. -/
theorem C11_registry_changes_only_by_add (s : BotState) (c : Int) (text : String)
    (h : s.userStates c = none) :
    (((loopBody s (some ⟨c, text⟩)).1.reg.tasks ≠ s.reg.tasks ∨
        (loopBody s (some ⟨c, text⟩)).1.reg.nextID ≠ s.reg.nextID) →
      HasPrefix text "/add" = true ∧
      ∃ a b : String, text = a ++ " " ++ b ∧ ' ' ∉ a.data ∧ TrimSpace b ≠ "") ∧
    (text ≠ "/start" → text ≠ "Главное меню" → text ≠ "Добавить задачу" →
      text ≠ "Список задач" → text ≠ "/help" → text ≠ "Выполнено" →
      HasPrefix text "/add" = false → HasPrefix text "/list" = false →
      (loopBody s (some ⟨c, text⟩)).2 =
        [{ chatID := c, text := msgUnknown, keyboard := false }] ∧
      (loopBody s (some ⟨c, text⟩)).1.reg = s.reg) := by
  rw [loopBody_of_none s ⟨c, text⟩ (pendingLayer_absent s c text h)]
  refine ⟨?_, ?_⟩
  · intro hch
    rcases commandLayer_reg_cases s c text with e | ⟨hp, a, b, _, hdata, hna, hb, _⟩
    · rw [e] at hch
      rcases hch with h1 | h1 <;> exact absurd rfl h1
    · exact ⟨hp, a, b, text_eq_of_data text a b hdata, hna, hb⟩
  · intro h1 h2 h3 h4 h5 h6 h7 h8
    rw [commandLayer_unknown s c text h1 h2 h3 h4 h5 h6 h7 h8]
    exact ⟨rfl, rfl⟩

/-- C11, amended, at the initial state, chat 5 and the text "/add buy milk". -/
theorem C11_registry_changes_only_by_add_witness :
    BotState.init.userStates 5 = none ∧
    (loopBody BotState.init (some ⟨5, "/add buy milk"⟩)).1.reg.tasks =
      [⟨1, "buy milk", false⟩] ∧
    (HasPrefix "/add buy milk" "/add" = true ∧
      ∃ a b : String, "/add buy milk" = a ++ " " ++ b ∧ ' ' ∉ a.data ∧ TrimSpace b ≠ "") :=
  ⟨rfl, by decide,
    (C11_registry_changes_only_by_add BotState.init 5 "/add buy milk" rfl).1
      (Or.inl (by decide))⟩

/-- C11 as stated fails: "/address foo" does not begin with "/add " and still adds a
task; "/add" is none of the literals of the `switch`, has neither the "/add " nor the
"/list" prefix, and gets the missing-description reply, not the unknown-command
reply. -/
theorem C11_counterexample :
    BotState.init.userStates 5 = none ∧
    HasPrefix "/address foo" "/add " = false ∧
    (loopBody BotState.init (some ⟨5, "/address foo"⟩)).1.reg =
      { tasks := [⟨1, "foo", false⟩], nextID := 2 } ∧
    (loopBody BotState.init (some ⟨5, "/address foo"⟩)).1.reg.tasks ≠
      BotState.init.reg.tasks ∧
    HasPrefix "/add" "/add " = false ∧ HasPrefix "/add" "/list" = false ∧
    (loopBody BotState.init (some ⟨5, "/add"⟩)).2 =
      [{ chatID := 5, text := msgMissingDescription, keyboard := false }] ∧
    (loopBody BotState.init (some ⟨5, "/add"⟩)).2 ≠
      [{ chatID := 5, text := msgUnknown, keyboard := false }] :=
  ⟨rfl, by decide, by decide, by decide, by decide, by decide, by decide, by decide⟩

theorem add_space_data (r : String) :
    ("/add " ++ r).data = '/' :: 'a' :: 'd' :: 'd' :: ' ' :: r.data := by
  rw [String.data_append]
  rfl

theorem add_space_split (r : String) : SplitN2 ("/add " ++ r) ' ' = ["/add", r] := by
  unfold SplitN2
  rw [add_space_data]
  rfl

theorem add_space_hasPrefix (r : String) : HasPrefix ("/add " ++ r) "/add" = true := by
  unfold HasPrefix
  rw [add_space_data]
  rfl

theorem add_space_not_literal (r : String) :
    ¬ (("/add " ++ r) = "/start" ∨ ("/add " ++ r) = "Главное меню") ∧
    ("/add " ++ r) ≠ "Добавить задачу" ∧ ("/add " ++ r) ≠ "Список задач" ∧
    ("/add " ++ r) ≠ "/help" ∧ ("/add " ++ r) ≠ "Выполнено" := by
  have key : ∀ l : List Char, l.get? 1 ≠ some 'a' → ("/add " ++ r) ≠ String.mk l := by
    intro l hl e
    apply hl
    have hdata := congrArg String.data e
    rw [add_space_data] at hdata
    have hl2 : '/' :: 'a' :: 'd' :: 'd' :: ' ' :: r.data = l := hdata
    rw [← hl2]
    rfl
  refine ⟨?_, key _ (by decide), key _ (by decide), key _ (by decide), key _ (by decide)⟩
  rintro (e | e)
  · exact key _ (by decide) e
  · exact key _ (by decide) e

theorem commandLayer_add_space (s : BotState) (c : Int) (r : String) :
    commandLayer s c ("/add " ++ r) =
      if TrimSpace r = "" then
        (s, [{ chatID := c, text := msgMissingDescription, keyboard := false }])
      else
        ({ reg := (addTask s.reg (TrimSpace r)).1, userStates := s.userStates },
          [{ chatID := c, text := (handleAddCommand s.reg (TrimSpace r)).2,
             keyboard := false }]) := by
  obtain ⟨h1, h2, h3, h4, h5⟩ := add_space_not_literal r
  unfold commandLayer
  rw [if_neg h1, if_neg h2, if_neg h3, if_neg h4, if_neg h5, if_pos (add_space_hasPrefix r)]
  dsimp only
  rw [add_space_split]
  have hg : ["/add", r].getD 1 "" = r := rfl
  have hlen : ¬ ["/add", r].length < 2 := by simp
  rw [hg]
  by_cases hb : TrimSpace r = ""
  · rw [if_pos hb, if_pos (Or.inr hb)]
  · rw [if_neg hb, if_neg (not_or.2 ⟨hlen, hb⟩)]
    rfl

theorem commandLayer_add_bare (s : BotState) (c : Int) :
    commandLayer s c "/add" =
      (s, [{ chatID := c, text := msgMissingDescription, keyboard := false }]) := by
  rfl

/-- C12: for a chat without an entry in `userStates`: the text "/add" alone, and
"/add " followed by a remainder `r` that is empty after trimming, create no task,
leave the task list, `nextID` and `userStates` unchanged and get the
missing-description reply; "/add " followed by any other `r` appends exactly one task
whose `Description` is `r` trimmed, and the reply carries that description and the
new task's `ID`. -/
theorem C12_add_command (s : BotState) (c : Int) (r : String) (h : s.userStates c = none) :
    ((loopBody s (some ⟨c, "/add"⟩)).2 =
        [{ chatID := c, text := msgMissingDescription, keyboard := false }] ∧
      (loopBody s (some ⟨c, "/add"⟩)).1.reg = s.reg ∧
      (loopBody s (some ⟨c, "/add"⟩)).1.userStates = s.userStates) ∧
    (TrimSpace r = "" →
      (loopBody s (some ⟨c, "/add " ++ r⟩)).2 =
        [{ chatID := c, text := msgMissingDescription, keyboard := false }] ∧
      (loopBody s (some ⟨c, "/add " ++ r⟩)).1.reg = s.reg ∧
      (loopBody s (some ⟨c, "/add " ++ r⟩)).1.userStates = s.userStates) ∧
    (TrimSpace r ≠ "" →
      (loopBody s (some ⟨c, "/add " ++ r⟩)).1.reg.tasks =
        s.reg.tasks ++ [{ ID := s.reg.nextID, Description := TrimSpace r, Completed := false }] ∧
      (loopBody s (some ⟨c, "/add " ++ r⟩)).1.reg.nextID = s.reg.nextID + 1 ∧
      (loopBody s (some ⟨c, "/add " ++ r⟩)).1.userStates = s.userStates ∧
      (loopBody s (some ⟨c, "/add " ++ r⟩)).2 =
        [{ chatID := c,
           text := "✅ Задача добавлена: " ++ TrimSpace r ++ " (ID: " ++ fmtInt s.reg.nextID ++ ")",
           keyboard := false }]) := by
  rw [loopBody_of_none s ⟨c, "/add"⟩ (pendingLayer_absent s c _ h),
    loopBody_of_none s ⟨c, "/add " ++ r⟩ (pendingLayer_absent s c _ h),
    commandLayer_add_bare, commandLayer_add_space]
  refine ⟨⟨rfl, rfl, rfl⟩, ?_, ?_⟩
  · intro hb
    rw [if_pos hb]
    exact ⟨rfl, rfl, rfl⟩
  · intro hb
    rw [if_neg hb]
    exact ⟨rfl, rfl, rfl, rfl⟩

/-- C12 at the initial state, chat 5 and the remainder "  buy milk ". -/
theorem C12_add_command_witness :
    BotState.init.userStates 5 = none ∧
    TrimSpace "  buy milk " = "buy milk" ∧
    (loopBody BotState.init (some ⟨5, "/add"⟩)).2 =
      [{ chatID := 5, text := msgMissingDescription, keyboard := false }] ∧
    (loopBody BotState.init (some ⟨5, "/add " ++ "  buy milk "⟩)).1.reg.tasks =
      BotState.init.reg.tasks ++
        [{ ID := BotState.init.reg.nextID, Description := TrimSpace "  buy milk ",
           Completed := false }] ∧
    (loopBody BotState.init (some ⟨5, "/add " ++ "  buy milk "⟩)).2 =
      [{ chatID := 5,
         text := "✅ Задача добавлена: " ++ TrimSpace "  buy milk " ++ " (ID: " ++
           fmtInt BotState.init.reg.nextID ++ ")",
         keyboard := false }] :=
  have h := C12_add_command BotState.init 5 "  buy milk " rfl
  ⟨rfl, by decide, h.1.1, (h.2.2 (by decide)).1, (h.2.2 (by decide)).2.2.2⟩

/-- C13: the code at the text "/done", sent by a chat without an entry in
`userStates`: the reply is the unknown-command message, the chat gets no entry and a
following "1" is answered as an unknown command too, while the help text lists "/done" as the command that marks a task as completed and
the menu label "Выполнено" does set the awaiting-done-ID entry. -/
theorem C13_done_command_not_recognised :
    BotState.init.userStates 5 = none ∧
    (loopBody BotState.init (some ⟨5, "/done"⟩)).2 =
      [{ chatID := 5, text := msgUnknown, keyboard := false }] ∧
    (loopBody BotState.init (some ⟨5, "/done"⟩)).1.userStates 5 = none ∧
    (loopBody (loopBody BotState.init (some ⟨5, "/done"⟩)).1 (some ⟨5, "1"⟩)).2 =
      [{ chatID := 5, text := msgUnknown, keyboard := false }] ∧
    (loopBody BotState.init (some ⟨5, "Выполнено"⟩)).1.userStates 5 =
      some { AwaitingDescription := false, AwaitingDoneID := true } ∧
    List.isSuffixOf
      "/done - отметить задачу как выполненную по ID (после команды нужно ввести ID)".data
      handleHelpCommand.data = true :=
  ⟨rfl, by decide, by decide, by decide, by decide, by decide⟩

theorem pendingLayer_one_reply (s : BotState) (c : Int) (text : String)
    (res : BotState × List Sent) (h : pendingLayer s c text = some res) :
    ∃ reply : Sent, res.2 = [reply] ∧ reply.chatID = c := by
  cases hs : s.userStates c with
  | none =>
    rw [pendingLayer_absent s c text hs] at h
    exact absurd h (by simp)
  | some st =>
    cases hd : st.AwaitingDescription with
    | true =>
      rw [pendingLayer_description s c text st hs hd, Option.some.injEq] at h
      exact ⟨_, by rw [← h], rfl⟩
    | false =>
      cases hi : st.AwaitingDoneID with
      | false =>
        rw [pendingLayer_noflag s c text st hs hd hi] at h
        exact absurd h (by simp)
      | true =>
        cases hn : Atoi (TrimSpace text) with
        | none =>
          rw [pendingLayer_invalid s c text st hs hd hi (Or.inl hn), Option.some.injEq] at h
          exact ⟨_, by rw [← h], rfl⟩
        | some n =>
          by_cases hle : n ≤ 0
          · rw [pendingLayer_invalid s c text st hs hd hi (Or.inr ⟨n, hn, hle⟩),
              Option.some.injEq] at h
            exact ⟨_, by rw [← h], rfl⟩
          · rw [pendingLayer_valid s c text st n hs hd hi hn (not_le.1 hle),
              Option.some.injEq] at h
            exact ⟨_, by rw [← h], rfl⟩

/-- C14: in every state (reachable or not) and for every update with a non-nil
message, one iteration sends exactly one message, addressed to the sender's chat; when
the chat has no entry in `userStates` and the text is none of the literals of the
`switch` and has neither the "/add" nor the "/list" prefix, that message is the
unknown-command reply. -/
theorem C14_exactly_one_reply (s : BotState) (m : Message) :
    (∃ reply : Sent, (loopBody s (some m)).2 = [reply] ∧ reply.chatID = m.chatID) ∧
    (s.userStates m.chatID = none →
      m.text ≠ "/start" → m.text ≠ "Главное меню" → m.text ≠ "Добавить задачу" →
      m.text ≠ "Список задач" → m.text ≠ "/help" → m.text ≠ "Выполнено" →
      HasPrefix m.text "/add" = false → HasPrefix m.text "/list" = false →
      (loopBody s (some m)).2 =
        [{ chatID := m.chatID, text := msgUnknown, keyboard := false }]) := by
  refine ⟨?_, ?_⟩
  · cases hp : pendingLayer s m.chatID m.text with
    | none =>
      rw [loopBody_of_none s m hp]
      exact commandLayer_one_reply s m.chatID m.text
    | some res =>
      rw [loopBody_of_pending s m res hp]
      exact pendingLayer_one_reply s m.chatID m.text res hp
  · intro h h1 h2 h3 h4 h5 h6 h7 h8
    rw [loopBody_of_none s m (pendingLayer_absent s m.chatID m.text h),
      commandLayer_unknown s m.chatID m.text h1 h2 h3 h4 h5 h6 h7 h8]

/-- C15: in every state the message loop reaches from the initial state, the stored
tasks carry the identifiers `1, 2, ..., n` in list order, for `n` the number of stored
tasks, and `nextID = n + 1`; so the identifiers are positive and pairwise distinct. -/
theorem C15_ids_one_to_n (us : List (Option Message)) :
    (runLoop BotState.init us).reg.tasks.map Task.ID =
      (List.range (runLoop BotState.init us).reg.tasks.length).map
        (fun i : Nat => (i : Int) + 1) ∧
    (runLoop BotState.init us).reg.nextID =
      ((runLoop BotState.init us).reg.tasks.length : Int) + 1 ∧
    (∀ t ∈ (runLoop BotState.init us).reg.tasks, 0 < t.ID) ∧
    ((runLoop BotState.init us).reg.tasks.map Task.ID).Nodup := by
  have hinv := (LoopInv_runLoop us BotState.init LoopInv_init).1
  refine ⟨hinv.1, hinv.2, ?_, RegInv_nodup _ hinv⟩
  intro t ht
  have hm : t.ID ∈ (runLoop BotState.init us).reg.tasks.map Task.ID :=
    List.mem_map_of_mem _ ht
  rw [hinv.1, List.mem_map] at hm
  obtain ⟨i, _, hi⟩ := hm
  rw [← hi]
  exact Int.add_pos_of_nonneg_of_pos (Int.ofNat_nonneg i) (by decide)

theorem listEntry_data (t : Task) : ∃ tail : List Char, (listEntry t).data = 'I' :: tail := by
  refine ⟨'D' :: ':' :: ' ' :: ((fmtInt t.ID).data ++ " - ".data ++ t.Description.data ++
    " [".data ++ (if t.Completed then "✅" else "❌").data ++ "]\n".data), ?_⟩
  simp only [listEntry, String.data_append]
  simp

theorem foldl_listEntry_data (l : List Task) :
    ∀ init : String, ∃ tail : List Char,
      (l.foldl (fun acc task => acc ++ listEntry task) init).data = init.data ++ tail := by
  induction l with
  | nil => intro init; exact ⟨[], by simp⟩
  | cons t rest ih =>
    intro init
    obtain ⟨tail, h⟩ := ih (init ++ listEntry t)
    refine ⟨(listEntry t).data ++ tail, ?_⟩
    rw [List.foldl_cons, h, String.data_append, List.append_assoc]

theorem foldl_listEntry_nonempty (t : Task) (rest : List Task) :
    ∃ tail : List Char,
      ((t :: rest).foldl (fun acc task => acc ++ listEntry task) "").data = 'I' :: tail := by
  obtain ⟨tail, h⟩ := foldl_listEntry_data rest ("" ++ listEntry t)
  obtain ⟨tail2, h2⟩ := listEntry_data t
  refine ⟨tail2 ++ tail, ?_⟩
  rw [List.foldl_cons, h, String.data_append, h2]
  rfl

/-- C16: `handleListCommand` returns "Список задач пуст." exactly when the task list is
empty; for a non-empty list it returns the concatenation, in list order and over all
tasks, of the entries "ID: <id> - <description> [<mark>]\n" with mark "✅" when the
task is completed and "❌" otherwise; both callers in the loop leave the globals
unchanged. -/
theorem C16_handleListCommand (r : Registry) :
    (handleListCommand r = "Список задач пуст." ↔ r.tasks = []) ∧
    (r.tasks ≠ [] → handleListCommand r = String.join (r.tasks.map (fun t =>
      "ID: " ++ fmtInt t.ID ++ " - " ++ t.Description ++ " [" ++
        (if t.Completed then "✅" else "❌") ++ "]\n"))) ∧
    (∀ (u : Int → Option UserState) (c : Int),
      commandLayer { reg := r, userStates := u } c "Список задач" =
        ({ reg := r, userStates := u },
          [{ chatID := c, text := handleListCommand r, keyboard := false }]) ∧
      commandLayer { reg := r, userStates := u } c "/list" =
        ({ reg := r, userStates := u },
          [{ chatID := c, text := handleListCommand r, keyboard := false }])) := by
  have hjoin : String.join (r.tasks.map (fun t =>
      "ID: " ++ fmtInt t.ID ++ " - " ++ t.Description ++ " [" ++
        (if t.Completed then "✅" else "❌") ++ "]\n")) =
      r.tasks.foldl (fun acc task => acc ++ listEntry task) "" := by
    unfold String.join
    rw [List.foldl_map]
    rfl
  have hne : r.tasks ≠ [] →
      handleListCommand r = r.tasks.foldl (fun acc task => acc ++ listEntry task) "" ∧
      handleListCommand r ≠ "Список задач пуст." := by
    intro hl
    cases hr : r.tasks with
    | nil => exact absurd hr hl
    | cons t rest =>
      obtain ⟨tail, ht⟩ := foldl_listEntry_nonempty t rest
      have hlen : ((t :: rest).foldl (fun acc task => acc ++ listEntry task) "").length ≠ 0 := by
        show (((t :: rest).foldl (fun acc task => acc ++ listEntry task) "").data).length ≠ 0
        rw [ht]
        simp
      have e : handleListCommand r =
          (t :: rest).foldl (fun acc task => acc ++ listEntry task) "" := by
        simp only [handleListCommand, getTasks, hr, if_neg hlen]
      refine ⟨e, ?_⟩
      rw [e]
      intro hbad
      have hd := congrArg String.data hbad
      rw [ht] at hd
      have hd2 : 'I' :: tail = 'С' :: "писок задач пуст.".data := hd
      rw [List.cons.injEq] at hd2
      exact absurd hd2.1 (by decide)
  refine ⟨⟨?_, ?_⟩, ?_, fun _ _ => ⟨rfl, rfl⟩⟩
  · intro h
    by_contra hl
    exact (hne hl).2 h
  · intro hl
    simp [handleListCommand, getTasks, hl]
  · intro hl
    rw [hjoin]
    exact (hne hl).1

/-- C17: for every state, two distinct chats `a` and `b` and every text, processing
a message from `a` leaves the entry of `b` in `userStates` as it was. -/
theorem C17_other_chat_untouched (s : BotState) (a b : Int) (text : String) (hab : a ≠ b) :
    (loopBody s (some ⟨a, text⟩)).1.userStates b = s.userStates b := by
  have hba : ¬ b = a := fun e => hab e.symm
  rcases (loopBody_effect s ⟨a, text⟩).2 with e | e | e | e
  · rw [e]
  · rw [e]; simp only [deleteState, if_neg hba]
  · rw [e]; simp only [setState, if_neg hba]
  · rw [e]; simp only [setState, if_neg hba]

/-- C17 at chat 7 awaiting a task ID while chat 5 presses "Добавить задачу". -/
theorem C17_other_chat_untouched_witness :
    (5 : Int) ≠ 7 ∧
    (runLoop BotState.init [some ⟨7, "Выполнено"⟩]).userStates 7 = some ⟨false, true⟩ ∧
    (loopBody (runLoop BotState.init [some ⟨7, "Выполнено"⟩])
        (some ⟨5, "Добавить задачу"⟩)).1.userStates 5 = some ⟨true, false⟩ ∧
    (loopBody (runLoop BotState.init [some ⟨7, "Выполнено"⟩])
        (some ⟨5, "Добавить задачу"⟩)).1.userStates 7 =
      (runLoop BotState.init [some ⟨7, "Выполнено"⟩]).userStates 7 :=
  ⟨by decide, by decide, by decide,
    C17_other_chat_untouched (runLoop BotState.init [some ⟨7, "Выполнено"⟩]) 5 7
      "Добавить задачу" (by decide)⟩

end TodoBot
